import Mathlib

/-!
Verification of the IntelliGallery search-and-match core (src/app.py).

Strings are modelled as lists of natural-number codepoints; Python's
`str.lower` / `str.upper` / `str.strip` are modelled characterwise over the
ASCII range, which is the range exercised by the OCR word data and queries.
The edit distance used by `is_fuzzy_match` (the `Levenshtein.distance`
library call in the source) is Mathlib's `levenshtein` with the unit-cost
structure, i.e. the classic insert/delete/substitute distance.
-/

open Levenshtein (defaultCost)

/-- Convert a Lean string literal to the codepoint-list representation. -/
def str (s : String) : List Nat := s.data.map (fun c => c.toNat)

/-- ASCII characterwise lowercasing, as done by `str.lower` in `app.py`. -/
def toLowerChar (c : Nat) : Nat := if 65 ≤ c ∧ c ≤ 90 then c + 32 else c

/-- ASCII characterwise uppercasing, as done by `str.upper` in `app.py`. -/
def toUpperChar (c : Nat) : Nat := if 97 ≤ c ∧ c ≤ 122 then c - 32 else c

/-- `s.lower()` on a whole string. -/
def lowerStr (s : List Nat) : List Nat := s.map toLowerChar

/-- `s.upper()` on a whole string. -/
def upperStr (s : List Nat) : List Nat := s.map toUpperChar

/-- ASCII whitespace, the characters removed by Python's `str.strip()`. -/
def isSpaceChar (c : Nat) : Bool :=
  c == 32 || c == 9 || c == 10 || c == 13 || c == 11 || c == 12

/-- `s.strip()`: drop whitespace from both ends. -/
def pyStrip (s : List Nat) : List Nat :=
  ((s.dropWhile isSpaceChar).reverse.dropWhile isSpaceChar).reverse

/-- Python's substring containment `pat in s`. -/
def containsSub (pat : List Nat) : List Nat → Bool
  | [] => pat.isEmpty
  | c :: rest => pat.isPrefixOf (c :: rest) || containsSub pat rest

/-- `is_fuzzy_match` from `app.py` lines 65-85: substring rule first, then
the length-scaled Levenshtein thresholds on the lowercased inputs. -/
def is_fuzzy_match (word term : List Nat) : Bool :=
  let word_lower := lowerStr word
  let term_lower := lowerStr term
  if containsSub term_lower word_lower then
    true
  else
    let distance := levenshtein defaultCost word_lower term_lower
    if term_lower.length ≤ 5 ∧ distance ≤ 1 then
      true
    else if 5 < term_lower.length ∧ term_lower.length < 10 ∧ distance ≤ 2 then
      true
    else if 10 ≤ term_lower.length ∧ distance ≤ 3 then
      true
    else
      false

/-- Boolean search mode, `search_type` in `app.py`. -/
inductive Mode
  | AND
  | OR
deriving DecidableEq

/-- The `" AND "` delimiter from `app.py` line 234. -/
def sepAND : List Nat := str " AND "

/-- The `" OR "` delimiter from `app.py` line 237. -/
def sepOR : List Nat := str " OR "

/-- Python's `s.split(sep)` for a non-empty separator, fuelled by the input
length (enough fuel for every call with a non-empty separator). -/
def splitFuel (sep : List Nat) : Nat → List Nat → List Nat → List (List Nat)
  | 0, s, acc => [acc.reverse ++ s]
  | fuel + 1, s, acc =>
    match s with
    | [] => [acc.reverse]
    | c :: rest =>
      if sep.isPrefixOf (c :: rest) then
        acc.reverse :: splitFuel sep fuel (List.drop sep.length (c :: rest)) []
      else
        splitFuel sep fuel rest (c :: acc)

/-- Python's `s.split(sep)`: leftmost, non-overlapping occurrences. -/
def splitOnSep (sep s : List Nat) : List (List Nat) := splitFuel sep s.length s []

/-- Lines 235/238/241 and 244 of `app.py`: each raw piece is stripped, the
empty ones are discarded, and the survivors are lowercased. -/
def cleanTerms (pieces : List (List Nat)) : List (List Nat) :=
  ((pieces.map pyStrip).filter (fun t => !t.isEmpty)).map lowerStr

/-- Query parsing, `app.py` lines 228 and 232-244: the raw `q` parameter is
lowercased and stripped, then the mode is detected on the uppercased form
(`" AND "` first, then `" OR "`, else implicit OR with single-space split). -/
def parseQuery (raw : List Nat) : Mode × List (List Nat) :=
  let query := pyStrip (lowerStr raw)
  if containsSub sepAND (upperStr query) then
    (Mode.AND, cleanTerms (splitOnSep sepAND (upperStr query)))
  else if containsSub sepOR (upperStr query) then
    (Mode.OR, cleanTerms (splitOnSep sepOR (upperStr query)))
  else
    (Mode.OR, cleanTerms (splitOnSep [32] query))

/-- One OCR word annotation: the `{"text": ..., "bbox": [x, y, w, h]}`
objects stored in `ocr_data_json` (`app.py` lines 114-125). -/
structure WordData where
  text : List Nat
  bbox : List Int
deriving DecidableEq

/-- One row of the `images` table as consumed by `/search`.  `ocrData` is
the outcome of `json.loads` on `ocr_data_json`: `none` when the stored data
is absent or fails to deserialize (the `except` arm of lines 262-265). -/
structure ImageRecord where
  id : Int
  display_name : List Nat
  internal_filename : List Nat
  ocrData : Option (List WordData)
deriving DecidableEq

/-- One element of the `/search` response (`app.py` lines 285-298). -/
structure SearchMatch where
  id : Int
  display_name : List Nat
  internal_filename : List Nat
  matched_words : List WordData
deriving DecidableEq

/-- `words_in_image` after the try/except of lines 262-265. -/
def wordsOf (img : ImageRecord) : List WordData := img.ocrData.getD []

/-- The inner word loop of `app.py` lines 270-277 for one term: returns the
`term_found_in_this_image` flag and the updated `matched_words_data` /
`matched_word_bboxes` accumulators. -/
def scanWords (term : List Nat) :
    List WordData → Bool → List WordData → List (List Int) →
    Bool × List WordData × List (List Int)
  | [], found, mwd, seen => (found, mwd, seen)
  | w :: ws, found, mwd, seen =>
    if is_fuzzy_match w.text term then
      if seen.contains w.bbox then
        scanWords term ws true mwd seen
      else
        scanWords term ws true (mwd ++ [w]) (seen ++ [w.bbox])
    else
      scanWords term ws found mwd seen

/-- The term loop of `app.py` lines 267-280: returns `terms_found_count`
and the final `matched_words_data`. -/
def scanTerms :
    List (List Nat) → List WordData → Nat → List WordData → List (List Int) →
    Nat × List WordData
  | [], _, cnt, mwd, _ => (cnt, mwd)
  | t :: ts, ws, cnt, mwd, seen =>
    let r := scanWords t ws false mwd seen
    scanTerms ts ws (if r.1 then cnt + 1 else cnt) r.2.1 r.2.2

/-- The response object built at `app.py` lines 285-290 / 293-298. -/
def toMatch (img : ImageRecord) (mwd : List WordData) : SearchMatch :=
  ⟨img.id, img.display_name, img.internal_filename, mwd⟩

/-- The image loop of `app.py` lines 255-298 with the AND/OR inclusion
decision of lines 284-298. -/
def searchGo (mode : Mode) (terms : List (List Nat)) :
    List ImageRecord → List SearchMatch
  | [] => []
  | img :: rest =>
    let r := scanTerms terms (wordsOf img) 0 [] []
    if mode = Mode.AND ∧ r.1 = terms.length then
      toMatch img r.2 :: searchGo mode terms rest
    else if mode = Mode.OR ∧ r.1 > 0 then
      toMatch img r.2 :: searchGo mode terms rest
    else
      searchGo mode terms rest

/-- The search engine of `app.py` lines 245-300: an empty parsed term list
short-circuits to an empty result (lines 245-246), otherwise every corpus
record is scanned. -/
def searchImages (mode : Mode) (terms : List (List Nat))
    (imgs : List ImageRecord) : List SearchMatch :=
  if terms.isEmpty then [] else searchGo mode terms imgs

/-- The length-scaled distance threshold table of the specification
(§4.3): term length at most 5 tolerates distance 1, strictly between 5 and
10 tolerates 2, at least 10 tolerates 3. -/
def distThreshold (tLen d : Nat) : Prop :=
  (tLen ≤ 5 ∧ d ≤ 1) ∨ (5 < tLen ∧ tLen < 10 ∧ d ≤ 2) ∨ (10 ≤ tLen ∧ d ≤ 3)

/-- Concrete two-box image: "cat" and "dog" in separate boxes. -/
def catDogImg : ImageRecord :=
  ⟨1, str "pic", str "pic", some [⟨str "cat", [0, 0, 1, 1]⟩, ⟨str "dog", [2, 2, 3, 3]⟩]⟩

/-- Concrete one-box image whose single annotation "timetable" is matched
by the two distinct terms "time" and "table". -/
def timetableImg : ImageRecord :=
  ⟨1, str "tt", str "tt", some [⟨str "timetable", [0, 0, 5, 5]⟩]⟩

/-- Concrete record whose stored word data failed to deserialize. -/
def corruptImg : ImageRecord := ⟨7, str "bad", str "bad", none⟩

/-- Two annotations with different text but the same bounding box: which
one the dedup keeps depends on the order of the query terms. -/
def sharedBoxImg : ImageRecord :=
  ⟨1, str "sb", str "sb", some [⟨str "ab", [0, 0, 1, 1]⟩, ⟨str "cd", [0, 0, 1, 1]⟩]⟩

lemma toLowerChar_idem (c : Nat) : toLowerChar (toLowerChar c) = toLowerChar c := by
  simp only [toLowerChar]
  split_ifs <;> omega

lemma lowerStr_idem (s : List Nat) : lowerStr (lowerStr s) = lowerStr s := by
  induction s with
  | nil => rfl
  | cons c cs ih => simp [lowerStr, toLowerChar_idem]

lemma lowerStr_length (s : List Nat) : (lowerStr s).length = s.length := by
  simp [lowerStr]

lemma containsSub_iff (pat s : List Nat) : containsSub pat s = true ↔ pat <:+: s := by
  induction s with
  | nil =>
    simp [containsSub, List.infix_nil, List.isEmpty_iff]
  | cons c rest ih =>
    simp [containsSub, List.infix_cons_iff, List.isPrefixOf_iff_prefix, ih]

lemma containsSub_nil_left (s : List Nat) : containsSub [] s = true := by
  cases s <;> simp [containsSub, List.isPrefixOf]

lemma scanWords_fst (t : List Nat) (ws : List WordData) :
    ∀ found mwd seen, (scanWords t ws found mwd seen).1
      = (found || ws.any (fun w => is_fuzzy_match w.text t)) := by
  induction ws with
  | nil => intro found mwd seen; simp [scanWords]
  | cons w ws ih =>
    intro found mwd seen
    simp only [scanWords, List.any_cons]
    split_ifs with hm hs
    · rw [ih]; simp [hm]
    · rw [ih]; simp [hm]
    · rw [ih]
      cases hb : is_fuzzy_match w.text t
      · simp
      · exact absurd hb hm

lemma scanWords_seen (t : List Nat) (ws : List WordData) :
    ∀ found mwd seen, seen = mwd.map (fun w => w.bbox) →
      (scanWords t ws found mwd seen).2.2
        = ((scanWords t ws found mwd seen).2.1).map (fun w => w.bbox) := by
  induction ws with
  | nil => intro found mwd seen h; simpa [scanWords] using h
  | cons w ws ih =>
    intro found mwd seen h
    simp only [scanWords]
    split_ifs with hm hs
    · exact ih true mwd seen h
    · exact ih true (mwd ++ [w]) (seen ++ [w.bbox]) (by simp [h])
    · exact ih found mwd seen h

lemma scanWords_ext (t : List Nat) (ws : List WordData) :
    ∀ found mwd seen,
      ∃ dw ds, (scanWords t ws found mwd seen).2.1 = mwd ++ dw ∧
        (scanWords t ws found mwd seen).2.2 = seen ++ ds ∧
        (∀ w2 ∈ dw, w2 ∈ ws ∧ is_fuzzy_match w2.text t = true) ∧
        (∀ b ∈ ds, ∃ w2 ∈ ws, is_fuzzy_match w2.text t = true ∧ w2.bbox = b) := by
  induction ws with
  | nil =>
    intro found mwd seen
    exact ⟨[], [], by simp [scanWords], by simp [scanWords], by simp, by simp⟩
  | cons w ws ih =>
    intro found mwd seen
    simp only [scanWords]
    split_ifs with hm hs
    · obtain ⟨dw, ds, h1, h2, h3, h4⟩ := ih true mwd seen
      refine ⟨dw, ds, h1, h2, fun w2 hw2 => ⟨List.mem_cons_of_mem w ((h3 w2 hw2).1), (h3 w2 hw2).2⟩, ?_⟩
      intro b hb
      obtain ⟨w2, hw2, hmw2, hbw2⟩ := h4 b hb
      exact ⟨w2, List.mem_cons_of_mem w hw2, hmw2, hbw2⟩
    · obtain ⟨dw, ds, h1, h2, h3, h4⟩ := ih true (mwd ++ [w]) (seen ++ [w.bbox])
      refine ⟨w :: dw, w.bbox :: ds, by simp [h1], by simp [h2], ?_, ?_⟩
      · intro w2 hw2
        rcases List.mem_cons.mp hw2 with h | h
        · exact ⟨h ▸ List.mem_cons_self w ws, h ▸ hm⟩
        · exact ⟨List.mem_cons_of_mem w ((h3 w2 h).1), (h3 w2 h).2⟩
      · intro b hb
        rcases List.mem_cons.mp hb with h | h
        · exact ⟨w, List.mem_cons_self w ws, hm, h.symm⟩
        · obtain ⟨w2, hw2, hmw2, hbw2⟩ := h4 b h
          exact ⟨w2, List.mem_cons_of_mem w hw2, hmw2, hbw2⟩
    · obtain ⟨dw, ds, h1, h2, h3, h4⟩ := ih found mwd seen
      refine ⟨dw, ds, h1, h2, fun w2 hw2 => ⟨List.mem_cons_of_mem w ((h3 w2 hw2).1), (h3 w2 hw2).2⟩, ?_⟩
      intro b hb
      obtain ⟨w2, hw2, hmw2, hbw2⟩ := h4 b hb
      exact ⟨w2, List.mem_cons_of_mem w hw2, hmw2, hbw2⟩

lemma scanWords_cover (t : List Nat) (ws : List WordData) :
    ∀ found mwd seen w, w ∈ ws → is_fuzzy_match w.text t = true →
      w.bbox ∈ (scanWords t ws found mwd seen).2.2 := by
  induction ws with
  | nil => intro found mwd seen w hw; exact absurd hw (List.not_mem_nil w)
  | cons w0 ws ih =>
    intro found mwd seen w hw hmt
    rcases List.mem_cons.mp hw with h | h
    · subst h
      simp only [scanWords]
      rw [if_pos hmt]
      by_cases hs : seen.contains w.bbox = true
      · rw [if_pos hs]
        obtain ⟨dw, ds, h1, h2, h3, h4⟩ := scanWords_ext t ws true mwd seen
        rw [h2]
        exact List.mem_append_left ds (by simpa using hs)
      · rw [if_neg hs]
        obtain ⟨dw, ds, h1, h2, h3, h4⟩ := scanWords_ext t ws true (mwd ++ [w]) (seen ++ [w.bbox])
        rw [h2]
        exact List.mem_append_left ds (by simp)
    · simp only [scanWords]
      split_ifs with hm hs
      · exact ih true mwd seen w h hmt
      · exact ih true (mwd ++ [w0]) (seen ++ [w0.bbox]) w h hmt
      · exact ih found mwd seen w h hmt

lemma scanWords_nodup (t : List Nat) (ws : List WordData) :
    ∀ found mwd seen, seen.Nodup →
      ((scanWords t ws found mwd seen).2.2).Nodup := by
  induction ws with
  | nil => intro found mwd seen h; simpa [scanWords] using h
  | cons w ws ih =>
    intro found mwd seen h
    simp only [scanWords]
    split_ifs with hm hs
    · exact ih true mwd seen h
    · refine ih true (mwd ++ [w]) (seen ++ [w.bbox]) ?_
      have hnm : w.bbox ∉ seen := by simpa using hs
      simp [List.nodup_append, h, hnm]
    · exact ih found mwd seen h

lemma scanTerms_fst (ws : List WordData) :
    ∀ ts cnt mwd seen, (scanTerms ts ws cnt mwd seen).1
      = cnt + ts.countP (fun t => ws.any (fun w => is_fuzzy_match w.text t)) := by
  intro ts
  induction ts with
  | nil => intro cnt mwd seen; simp [scanTerms]
  | cons t ts ih =>
    intro cnt mwd seen
    simp only [scanTerms]
    rw [ih, scanWords_fst]
    simp only [Bool.false_or, List.countP_cons]
    cases hany : ws.any (fun w => is_fuzzy_match w.text t) <;> simp [hany]
    omega

lemma scanTerms_nodup (ws : List WordData) :
    ∀ ts cnt mwd seen, seen = mwd.map (fun w => w.bbox) → seen.Nodup →
      (((scanTerms ts ws cnt mwd seen).2).map (fun w => w.bbox)).Nodup := by
  intro ts
  induction ts with
  | nil => intro cnt mwd seen h hnd; simp only [scanTerms]; exact h ▸ hnd
  | cons t ts ih =>
    intro cnt mwd seen h hnd
    simp only [scanTerms]
    exact ih _ _ _ (scanWords_seen t ws false mwd seen h)
      (scanWords_nodup t ws false mwd seen hnd)

lemma scanTerms_mem (ws : List WordData) :
    ∀ ts cnt mwd seen w2, w2 ∈ (scanTerms ts ws cnt mwd seen).2 →
      w2 ∈ mwd ∨ (w2 ∈ ws ∧ ∃ t ∈ ts, is_fuzzy_match w2.text t = true) := by
  intro ts
  induction ts with
  | nil => intro cnt mwd seen w2 hw2; exact Or.inl (by simpa [scanTerms] using hw2)
  | cons t ts ih =>
    intro cnt mwd seen w2 hw2
    simp only [scanTerms] at hw2
    rcases ih _ _ _ w2 hw2 with h | ⟨hws, t', ht', hm'⟩
    · obtain ⟨dw, ds, h1, h2, h3, h4⟩ := scanWords_ext t ws false mwd seen
      rw [h1] at h
      rcases List.mem_append.mp h with h | h
      · exact Or.inl h
      · exact Or.inr ⟨(h3 w2 h).1, t, List.mem_cons_self t ts, (h3 w2 h).2⟩
    · exact Or.inr ⟨hws, t', List.mem_cons_of_mem t ht', hm'⟩

lemma scanTerms_seen_mono (ws : List WordData) :
    ∀ ts cnt mwd seen b, seen = mwd.map (fun w => w.bbox) → b ∈ seen →
      b ∈ ((scanTerms ts ws cnt mwd seen).2).map (fun w => w.bbox) := by
  intro ts
  induction ts with
  | nil => intro cnt mwd seen b h hb; simp only [scanTerms]; exact h ▸ hb
  | cons t ts ih =>
    intro cnt mwd seen b h hb
    simp only [scanTerms]
    refine ih _ _ _ b (scanWords_seen t ws false mwd seen h) ?_
    obtain ⟨dw, ds, h1, h2, h3, h4⟩ := scanWords_ext t ws false mwd seen
    rw [h2]
    exact List.mem_append_left ds hb

lemma scanTerms_cover (ws : List WordData) :
    ∀ ts cnt mwd seen w, seen = mwd.map (fun w => w.bbox) → w ∈ ws →
      (∃ t ∈ ts, is_fuzzy_match w.text t = true) →
      w.bbox ∈ ((scanTerms ts ws cnt mwd seen).2).map (fun w => w.bbox) := by
  intro ts
  induction ts with
  | nil => intro cnt mwd seen w h hw ⟨t, ht, hm⟩; exact absurd ht (List.not_mem_nil t)
  | cons t ts ih =>
    intro cnt mwd seen w h hw ⟨t', ht', hm'⟩
    simp only [scanTerms]
    rcases List.mem_cons.mp ht' with he | he
    · subst he
      refine scanTerms_seen_mono ws ts _ _ _ w.bbox
        (scanWords_seen t' ws false mwd seen h) ?_
      exact scanWords_cover t' ws false mwd seen w hw hm'
    · exact ih _ _ _ w (scanWords_seen t ws false mwd seen h) hw ⟨t', he, hm'⟩

lemma scanTerms_bbox_mem (ws : List WordData) :
    ∀ ts cnt mwd seen b, seen = mwd.map (fun w => w.bbox) →
      (b ∈ ((scanTerms ts ws cnt mwd seen).2).map (fun w => w.bbox) ↔
        b ∈ seen ∨ ∃ w ∈ ws, (∃ t ∈ ts, is_fuzzy_match w.text t = true) ∧ w.bbox = b) := by
  intro ts cnt mwd seen b h
  constructor
  · intro hb
    obtain ⟨w2, hw2, hbw2⟩ := List.mem_map.mp hb
    rcases scanTerms_mem ws ts cnt mwd seen w2 hw2 with hm | ⟨hws, ht⟩
    · exact Or.inl (h ▸ hbw2 ▸ List.mem_map_of_mem (fun w => w.bbox) hm)
    · exact Or.inr ⟨w2, hws, ht, hbw2⟩
  · intro hb
    rcases hb with hb | ⟨w, hw, ht, hbw⟩
    · exact scanTerms_seen_mono ws ts cnt mwd seen b h hb
    · exact hbw ▸ scanTerms_cover ws ts cnt mwd seen w h hw ht

lemma searchGo_cons (mode : Mode) (terms : List (List Nat))
    (img : ImageRecord) (rest : List ImageRecord) :
    searchGo mode terms (img :: rest) =
      if (mode = Mode.AND ∧ (scanTerms terms (wordsOf img) 0 [] []).1 = terms.length)
          ∨ (mode = Mode.OR ∧ (scanTerms terms (wordsOf img) 0 [] []).1 > 0) then
        toMatch img (scanTerms terms (wordsOf img) 0 [] []).2 :: searchGo mode terms rest
      else
        searchGo mode terms rest := by
  simp only [searchGo]
  split_ifs <;> first | rfl | tauto

lemma searchImages_ne_nil (mode : Mode) (terms : List (List Nat))
    (imgs : List ImageRecord) (h : terms ≠ []) :
    searchImages mode terms imgs = searchGo mode terms imgs := by
  cases terms with
  | nil => exact absurd rfl h
  | cons t ts => rfl

lemma count_eq_len_iff (terms : List (List Nat)) (ws : List WordData) :
    (scanTerms terms ws 0 [] []).1 = terms.length ↔
      ∀ t ∈ terms, ∃ w ∈ ws, is_fuzzy_match w.text t = true := by
  rw [scanTerms_fst]
  simp only [Nat.zero_add]
  rw [List.countP_eq_length]
  simp [List.any_eq_true]

lemma count_pos_iff (terms : List (List Nat)) (ws : List WordData) :
    (scanTerms terms ws 0 [] []).1 > 0 ↔
      ∃ t ∈ terms, ∃ w ∈ ws, is_fuzzy_match w.text t = true := by
  rw [scanTerms_fst]
  simp only [Nat.zero_add, gt_iff_lt]
  rw [List.countP_pos_iff]
  simp [List.any_eq_true]

lemma cleanTerms_ne_nil (ps : List (List Nat)) :
    ∀ t ∈ cleanTerms ps, t ≠ [] := by
  intro t ht
  simp only [cleanTerms, List.mem_map, List.mem_filter] at ht
  obtain ⟨p, ⟨hp, hne⟩, rfl⟩ := ht
  intro h
  have : p.length = 0 := by
    have := lowerStr_length p
    rw [h] at this
    simpa using this.symm
  simp [List.isEmpty_iff, List.length_eq_zero.mp this] at hne

lemma parseQuery_terms_clean (raw : List Nat) :
    ∃ ps, (parseQuery raw).2 = cleanTerms ps := by
  simp only [parseQuery]
  split_ifs <;> exact ⟨_, rfl⟩

/-- C1: when the lowercased term is not a substring of the lowercased word,
`is_fuzzy_match` holds exactly when the Levenshtein distance between the
lowercased strings meets the length-scaled threshold on the term; in
particular "invo1ce"/"invoice" matches and "xyz"/"abc" does not. -/
theorem c1_fuzzy_threshold :
    (∀ w t : List Nat, ¬ (lowerStr t <:+: lowerStr w) →
      (is_fuzzy_match w t = true ↔
        distThreshold t.length (levenshtein defaultCost (lowerStr w) (lowerStr t)))) ∧
    is_fuzzy_match (str "invo1ce") (str "invoice") = true ∧
    is_fuzzy_match (str "xyz") (str "abc") = false := by
  refine ⟨?_, by decide, by decide⟩
  intro w t h
  have hc : containsSub (lowerStr t) (lowerStr w) = false := by
    rw [← Bool.not_eq_true, containsSub_iff]
    exact h
  simp only [is_fuzzy_match, hc, Bool.false_eq_true, if_false, lowerStr_length, distThreshold]
  split_ifs with h1 h2 h3 <;> simp <;> omega

/-- Witness for C1 at the concrete pair from the specification. -/
theorem c1_fuzzy_threshold_witness :
    ¬ (lowerStr (str "invoice") <:+: lowerStr (str "invo1ce")) ∧
    (is_fuzzy_match (str "invo1ce") (str "invoice") = true ↔
      distThreshold (str "invoice").length
        (levenshtein defaultCost (lowerStr (str "invo1ce")) (lowerStr (str "invoice")))) := by
  have h : ¬ (lowerStr (str "invoice") <:+: lowerStr (str "invo1ce")) := by decide
  exact ⟨h, c1_fuzzy_threshold.1 (str "invo1ce") (str "invoice") h⟩

/-- C3: the substring rule fires first, so a term whose lowercase form is a
substring of the lowercased word always matches, whatever the distance. -/
theorem c3_substring_match :
    ∀ w t : List Nat, lowerStr t <:+: lowerStr w → is_fuzzy_match w t = true := by
  intro w t h
  have hc : containsSub (lowerStr t) (lowerStr w) = true := (containsSub_iff _ _).mpr h
  simp [is_fuzzy_match, hc]

/-- Witness for C3: "time" is a substring of "timetable". -/
theorem c3_substring_match_witness :
    (lowerStr (str "time") <:+: lowerStr (str "timetable")) ∧
    is_fuzzy_match (str "timetable") (str "time") = true := by
  have h : lowerStr (str "time") <:+: lowerStr (str "timetable") := by decide
  exact ⟨h, c3_substring_match (str "timetable") (str "time") h⟩

/-- C9: `is_fuzzy_match` lowercases its own inputs, so it is insensitive to
pre-lowercasing by the caller. -/
theorem c9_self_lowercasing :
    ∀ w t : List Nat, is_fuzzy_match w t = is_fuzzy_match (lowerStr w) (lowerStr t) := by
  intro w t
  simp only [is_fuzzy_match, lowerStr_idem]

/-- C10: the empty term is a substring of every word, so `is_fuzzy_match`
accepts it unconditionally, while the parser never emits an empty term. -/
theorem c10_empty_term :
    (∀ w : List Nat, is_fuzzy_match w [] = true) ∧
    (∀ raw : List Nat, ((parseQuery raw).2).contains [] = false) := by
  constructor
  · intro w
    have hc : containsSub (lowerStr []) (lowerStr w) = true := containsSub_nil_left (lowerStr w)
    simp [is_fuzzy_match, hc]
  · intro raw
    obtain ⟨ps, hps⟩ := parseQuery_terms_clean raw
    rw [hps]
    rcases hc : (cleanTerms ps).contains [] with _ | _
    · rfl
    · exfalso
      have : ([] : List Nat) ∈ cleanTerms ps := by simpa using hc
      exact cleanTerms_ne_nil ps [] this rfl

/-- C5: mode detection order on the trimmed lowercased query: `" AND "` in
the uppercased form wins and splits on it, else `" OR "`, else single
spaces with implicit OR; pieces are stripped, lowercased and empties
dropped; with the three concrete examples from the specification. -/
theorem c5_parse_detection :
    (∀ raw : List Nat,
      ((parseQuery raw).1 = Mode.AND ↔
        containsSub sepAND (upperStr (pyStrip (lowerStr raw))) = true) ∧
      (containsSub sepAND (upperStr (pyStrip (lowerStr raw))) = true →
        (parseQuery raw).2 =
          cleanTerms (splitOnSep sepAND (upperStr (pyStrip (lowerStr raw))))) ∧
      (containsSub sepAND (upperStr (pyStrip (lowerStr raw))) = false →
        containsSub sepOR (upperStr (pyStrip (lowerStr raw))) = true →
        (parseQuery raw).2 =
          cleanTerms (splitOnSep sepOR (upperStr (pyStrip (lowerStr raw))))) ∧
      (containsSub sepAND (upperStr (pyStrip (lowerStr raw))) = false →
        containsSub sepOR (upperStr (pyStrip (lowerStr raw))) = false →
        (parseQuery raw).2 =
          cleanTerms (splitOnSep [32] (pyStrip (lowerStr raw))))) ∧
    parseQuery (str "cat AND dog") = (Mode.AND, [str "cat", str "dog"]) ∧
    parseQuery (str "cat OR dog") = (Mode.OR, [str "cat", str "dog"]) ∧
    parseQuery (str "cat dog") = (Mode.OR, [str "cat", str "dog"]) := by
  refine ⟨?_, by decide, by decide, by decide⟩
  intro raw
  by_cases hA : containsSub sepAND (upperStr (pyStrip (lowerStr raw))) = true
  · simp [parseQuery, hA]
  · have hA' : containsSub sepAND (upperStr (pyStrip (lowerStr raw))) = false :=
      Bool.eq_false_iff.mpr hA
    by_cases hO : containsSub sepOR (upperStr (pyStrip (lowerStr raw))) = true
    · simp [parseQuery, hA', hO]
    · have hO' : containsSub sepOR (upperStr (pyStrip (lowerStr raw))) = false :=
        Bool.eq_false_iff.mpr hO
      simp [parseQuery, hA', hO']

/-- Witness for C5 at the query "cat AND dog". -/
theorem c5_parse_detection_witness :
    containsSub sepAND (upperStr (pyStrip (lowerStr (str "cat AND dog")))) = true ∧
    (parseQuery (str "cat AND dog")).2 =
      cleanTerms (splitOnSep sepAND (upperStr (pyStrip (lowerStr (str "cat AND dog"))))) := by
  have h : containsSub sepAND (upperStr (pyStrip (lowerStr (str "cat AND dog")))) = true := by
    decide
  exact ⟨h, (c5_parse_detection.1 (str "cat AND dog")).2.1 h⟩

/-- C6: the empty raw query parses to an empty term list, and a search over
an empty term list returns an empty result on any corpus, as a normal
value. -/
theorem c6_empty_query :
    parseQuery (str "") = (Mode.OR, []) ∧
    ∀ (mode : Mode) (imgs : List ImageRecord), searchImages mode [] imgs = [] := by
  exact ⟨by decide, fun mode imgs => rfl⟩

/-- C2: for a non-empty term list, AND mode includes exactly the images in
which every term matches some word annotation (not necessarily the same
one), and OR mode exactly those in which at least one term matches. -/
theorem c2_boolean_inclusion :
    ∀ (terms : List (List Nat)) (imgs : List ImageRecord), terms ≠ [] →
      (searchImages Mode.AND terms imgs =
        (imgs.filter (fun img =>
          decide (∀ t ∈ terms, ∃ w ∈ wordsOf img, is_fuzzy_match w.text t = true))).map
          (fun img => toMatch img (scanTerms terms (wordsOf img) 0 [] []).2)) ∧
      (searchImages Mode.OR terms imgs =
        (imgs.filter (fun img =>
          decide (∃ t ∈ terms, ∃ w ∈ wordsOf img, is_fuzzy_match w.text t = true))).map
          (fun img => toMatch img (scanTerms terms (wordsOf img) 0 [] []).2)) := by
  intro terms imgs hne
  rw [searchImages_ne_nil _ _ _ hne, searchImages_ne_nil _ _ _ hne]
  constructor
  · induction imgs with
    | nil => rfl
    | cons img rest ih =>
      rw [searchGo_cons]
      by_cases hk : (scanTerms terms (wordsOf img) 0 [] []).1 = terms.length
      · rw [if_pos (Or.inl ⟨rfl, hk⟩)]
        have hd : decide (∀ t ∈ terms, ∃ w ∈ wordsOf img,
            is_fuzzy_match w.text t = true) = true :=
          decide_eq_true ((count_eq_len_iff terms (wordsOf img)).mp hk)
        simp only [List.filter_cons, hd, if_true, List.map_cons, ih]
      · rw [if_neg ?hni]
        case hni =>
          rintro (⟨_, hc⟩ | ⟨hmode, _⟩)
          · exact hk hc
          · exact Mode.noConfusion hmode
        have hd : decide (∀ t ∈ terms, ∃ w ∈ wordsOf img,
            is_fuzzy_match w.text t = true) = false :=
          decide_eq_false (fun hall => hk ((count_eq_len_iff terms (wordsOf img)).mpr hall))
        simp only [List.filter_cons, hd, ih]
        rw [if_neg (by simp)]
  · induction imgs with
    | nil => rfl
    | cons img rest ih =>
      rw [searchGo_cons]
      by_cases hk : (scanTerms terms (wordsOf img) 0 [] []).1 > 0
      · rw [if_pos (Or.inr ⟨rfl, hk⟩)]
        have hd : decide (∃ t ∈ terms, ∃ w ∈ wordsOf img,
            is_fuzzy_match w.text t = true) = true :=
          decide_eq_true ((count_pos_iff terms (wordsOf img)).mp hk)
        simp only [List.filter_cons, hd, if_true, List.map_cons, ih]
      · rw [if_neg ?hni]
        case hni =>
          rintro (⟨hmode, _⟩ | ⟨_, hc⟩)
          · exact Mode.noConfusion hmode
          · exact hk hc
        have hd : decide (∃ t ∈ terms, ∃ w ∈ wordsOf img,
            is_fuzzy_match w.text t = true) = false :=
          decide_eq_false (fun hex => hk ((count_pos_iff terms (wordsOf img)).mpr hex))
        simp only [List.filter_cons, hd, ih]
        rw [if_neg (by simp)]

/-- Witness for C2 on the two-box cat/dog image. -/
theorem c2_boolean_inclusion_witness :
    ([str "cat", str "dog"] : List (List Nat)) ≠ [] ∧
    (searchImages Mode.AND [str "cat", str "dog"] [catDogImg] =
      (([catDogImg].filter (fun img =>
        decide (∀ t ∈ [str "cat", str "dog"], ∃ w ∈ wordsOf img,
          is_fuzzy_match w.text t = true))).map
        (fun img => toMatch img (scanTerms [str "cat", str "dog"] (wordsOf img) 0 [] []).2))) ∧
    (searchImages Mode.OR [str "cat", str "dog"] [catDogImg] =
      (([catDogImg].filter (fun img =>
        decide (∃ t ∈ [str "cat", str "dog"], ∃ w ∈ wordsOf img,
          is_fuzzy_match w.text t = true))).map
        (fun img => toMatch img (scanTerms [str "cat", str "dog"] (wordsOf img) 0 [] []).2))) := by
  have h : ([str "cat", str "dog"] : List (List Nat)) ≠ [] := by decide
  exact ⟨h, (c2_boolean_inclusion _ _ h).1, (c2_boolean_inclusion _ _ h).2⟩

lemma searchGo_mem (mode : Mode) (terms : List (List Nat)) :
    ∀ (imgs : List ImageRecord) (m : SearchMatch), m ∈ searchGo mode terms imgs →
      ∃ img ∈ imgs, m = toMatch img (scanTerms terms (wordsOf img) 0 [] []).2 := by
  intro imgs
  induction imgs with
  | nil => intro m hm; exact absurd hm (List.not_mem_nil m)
  | cons img rest ih =>
    intro m hm
    rw [searchGo_cons] at hm
    split_ifs at hm with hc
    · rcases List.mem_cons.mp hm with h | h
      · exact ⟨img, List.mem_cons_self img rest, h⟩
      · obtain ⟨i, hi, he⟩ := ih m h
        exact ⟨i, List.mem_cons_of_mem img hi, he⟩
    · obtain ⟨i, hi, he⟩ := ih m hm
      exact ⟨i, List.mem_cons_of_mem img hi, he⟩

lemma searchImages_mem (mode : Mode) (terms : List (List Nat))
    (imgs : List ImageRecord) (m : SearchMatch) (hm : m ∈ searchImages mode terms imgs) :
    ∃ img ∈ imgs, m = toMatch img (scanTerms terms (wordsOf img) 0 [] []).2 := by
  by_cases he : terms.isEmpty = true
  · rw [searchImages, if_pos he] at hm
    exact absurd hm (List.not_mem_nil m)
  · rw [searchImages, if_neg he] at hm
    exact searchGo_mem mode terms imgs m hm

/-- C4: in every emitted match, the matched-word bounding boxes are
pairwise distinct, every listed annotation matched some query term, and the
list covers — up to bbox dedup — exactly the source image's annotations
that matched at least one term. -/
theorem c4_bbox_dedup :
    ∀ (mode : Mode) (terms : List (List Nat)) (imgs : List ImageRecord) (m : SearchMatch),
      m ∈ searchImages mode terms imgs →
      ((m.matched_words.map (fun w => w.bbox)).Nodup ∧
       (∀ w2 ∈ m.matched_words, ∃ t ∈ terms, is_fuzzy_match w2.text t = true) ∧
       ∃ img ∈ imgs, m.id = img.id ∧
         (∀ w2 ∈ m.matched_words, w2 ∈ wordsOf img) ∧
         (∀ w ∈ wordsOf img, (∃ t ∈ terms, is_fuzzy_match w.text t = true) →
           ∃ w2 ∈ m.matched_words, w2.bbox = w.bbox)) := by
  intro mode terms imgs m hm
  obtain ⟨img, himg, rfl⟩ := searchImages_mem mode terms imgs m hm
  refine ⟨scanTerms_nodup (wordsOf img) terms 0 [] [] rfl List.nodup_nil, ?_, ?_⟩
  · intro w2 hw2
    rcases scanTerms_mem (wordsOf img) terms 0 [] [] w2 hw2 with h | ⟨_, h⟩
    · exact absurd h (List.not_mem_nil w2)
    · exact h
  · refine ⟨img, himg, rfl, ?_, ?_⟩
    · intro w2 hw2
      rcases scanTerms_mem (wordsOf img) terms 0 [] [] w2 hw2 with h | ⟨h, _⟩
      · exact absurd h (List.not_mem_nil w2)
      · exact h
    · intro w hw hex
      have := scanTerms_cover (wordsOf img) terms 0 [] [] w rfl hw hex
      obtain ⟨w2, hw2, hb⟩ := List.mem_map.mp this
      exact ⟨w2, hw2, hb⟩

/-- Witness for C4: both "time" and "table" match the single "timetable"
annotation, which is kept exactly once. -/
theorem c4_bbox_dedup_witness :
    (⟨1, str "tt", str "tt", [⟨str "timetable", [0, 0, 5, 5]⟩]⟩ : SearchMatch) ∈
      searchImages Mode.AND [str "time", str "table"] [timetableImg] ∧
    (((⟨1, str "tt", str "tt", [⟨str "timetable", [0, 0, 5, 5]⟩]⟩ :
        SearchMatch).matched_words.map (fun w => w.bbox)).Nodup ∧
     (∀ w2 ∈ (⟨1, str "tt", str "tt", [⟨str "timetable", [0, 0, 5, 5]⟩]⟩ :
        SearchMatch).matched_words,
       ∃ t ∈ [str "time", str "table"], is_fuzzy_match w2.text t = true) ∧
     ∃ img ∈ [timetableImg],
       (⟨1, str "tt", str "tt", [⟨str "timetable", [0, 0, 5, 5]⟩]⟩ : SearchMatch).id = img.id ∧
       (∀ w2 ∈ (⟨1, str "tt", str "tt", [⟨str "timetable", [0, 0, 5, 5]⟩]⟩ :
          SearchMatch).matched_words, w2 ∈ wordsOf img) ∧
       (∀ w ∈ wordsOf img, (∃ t ∈ [str "time", str "table"],
            is_fuzzy_match w.text t = true) →
         ∃ w2 ∈ (⟨1, str "tt", str "tt", [⟨str "timetable", [0, 0, 5, 5]⟩]⟩ :
            SearchMatch).matched_words, w2.bbox = w.bbox)) := by
  have h : (⟨1, str "tt", str "tt", [⟨str "timetable", [0, 0, 5, 5]⟩]⟩ : SearchMatch) ∈
      searchImages Mode.AND [str "time", str "table"] [timetableImg] := by decide
  exact ⟨h, c4_bbox_dedup Mode.AND [str "time", str "table"] [timetableImg] _ h⟩

lemma scanTerms_nil_words :
    ∀ (ts : List (List Nat)) (cnt : Nat) (mwd : List WordData) (seen : List (List Int)),
      scanTerms ts [] cnt mwd seen = (cnt, mwd) := by
  intro ts
  induction ts with
  | nil => intro cnt mwd seen; rfl
  | cons t ts ih =>
    intro cnt mwd seen
    simp only [scanTerms, scanWords]
    exact ih cnt mwd seen

/-- C7: a record whose stored word data is absent or fails to deserialize
is scanned with an empty word list — zero found terms, no matched words —
and its presence anywhere in the corpus leaves the rest of the search
result unchanged. -/
theorem c7_corrupt_record :
    ∀ (mode : Mode) (terms : List (List Nat)) (pre post : List ImageRecord)
      (img : ImageRecord), img.ocrData = none →
      scanTerms terms (wordsOf img) 0 [] [] = (0, []) ∧
      searchImages mode terms (pre ++ img :: post) = searchImages mode terms (pre ++ post) := by
  intro mode terms pre post img hnone
  have hw : wordsOf img = [] := by simp [wordsOf, hnone]
  refine ⟨by rw [hw]; exact scanTerms_nil_words terms 0 [] [], ?_⟩
  cases terms with
  | nil => rfl
  | cons t ts =>
    rw [searchImages_ne_nil _ _ _ (List.cons_ne_nil t ts),
      searchImages_ne_nil _ _ _ (List.cons_ne_nil t ts)]
    induction pre with
    | nil =>
      simp only [List.nil_append]
      rw [searchGo_cons]
      rw [if_neg ?hni]
      case hni =>
        rw [hw, scanTerms_nil_words]
        rintro (⟨_, hc⟩ | ⟨_, hc⟩)
        · exact absurd hc.symm (by simp)
        · exact absurd hc (by simp)
    | cons p pre ih =>
      simp only [List.cons_append, searchGo_cons, ih]

/-- Witness for C7: the corrupt record sits in front of a healthy record
and drops out of the result. -/
theorem c7_corrupt_record_witness :
    corruptImg.ocrData = none ∧
    (scanTerms [str "cat"] (wordsOf corruptImg) 0 [] [] = (0, []) ∧
     searchImages Mode.OR [str "cat"] ([] ++ corruptImg :: [catDogImg]) =
       searchImages Mode.OR [str "cat"] ([] ++ [catDogImg])) := by
  exact ⟨rfl, c7_corrupt_record Mode.OR [str "cat"] [] [catDogImg] corruptImg rfl⟩

/-- C8 fails as stated: permuting the query terms can change the returned
matched words.  With two annotations sharing one bounding box, the dedup
keeps whichever annotation is reached first, which depends on term order. -/
theorem c8_order_counterexample :
    ([str "ab", str "cd"] : List (List Nat)).Perm [str "cd", str "ab"] ∧
    searchImages Mode.OR [str "ab", str "cd"] [sharedBoxImg] ≠
      searchImages Mode.OR [str "cd", str "ab"] [sharedBoxImg] := by
  constructor
  · exact List.Perm.swap (str "cd") (str "ab") []
  · decide

/-- C8 amended: permuting the term list preserves which images are
included (in corpus order, with identical id, display name and internal
filename) and, for each included image, the set of matched bounding boxes;
only the choice and order of representative annotations can change. -/
theorem c8_order_amended :
    ∀ (mode : Mode) (terms1 terms2 : List (List Nat)) (imgs : List ImageRecord),
      terms1.Perm terms2 →
      List.Forall₂ (fun m1 m2 : SearchMatch =>
          m1.id = m2.id ∧ m1.display_name = m2.display_name ∧
          m1.internal_filename = m2.internal_filename ∧
          (m1.matched_words.map (fun w => w.bbox)).Perm
            (m2.matched_words.map (fun w => w.bbox)))
        (searchImages mode terms1 imgs) (searchImages mode terms2 imgs) := by
  intro mode terms1 terms2 imgs hp
  rcases he : terms1 with _ | ⟨t, ts⟩
  · have h2 : terms2 = [] := (he ▸ hp).symm.eq_nil
    rw [h2]
    exact List.Forall₂.nil
  · rw [← he]
    have hne1 : terms1 ≠ [] := by rw [he]; exact List.cons_ne_nil t ts
    have hne2 : terms2 ≠ [] := by
      intro h2
      rw [h2] at hp
      exact hne1 hp.eq_nil
    rw [searchImages_ne_nil _ _ _ hne1, searchImages_ne_nil _ _ _ hne2]
    induction imgs with
    | nil => exact List.Forall₂.nil
    | cons img rest ih =>
      rw [searchGo_cons, searchGo_cons]
      have hcnt : (scanTerms terms1 (wordsOf img) 0 [] []).1
          = (scanTerms terms2 (wordsOf img) 0 [] []).1 := by
        rw [scanTerms_fst, scanTerms_fst, hp.countP_eq]
      have hlen : terms1.length = terms2.length := hp.length_eq
      have hperm : ((scanTerms terms1 (wordsOf img) 0 [] []).2.map (fun w => w.bbox)).Perm
          ((scanTerms terms2 (wordsOf img) 0 [] []).2.map (fun w => w.bbox)) := by
        rw [List.perm_ext_iff_of_nodup
          (scanTerms_nodup (wordsOf img) terms1 0 [] [] rfl List.nodup_nil)
          (scanTerms_nodup (wordsOf img) terms2 0 [] [] rfl List.nodup_nil)]
        intro b
        rw [scanTerms_bbox_mem (wordsOf img) terms1 0 [] [] b rfl,
          scanTerms_bbox_mem (wordsOf img) terms2 0 [] [] b rfl]
        simp only [List.not_mem_nil, false_or]
        constructor
        · rintro ⟨w, hw, ⟨t', ht', hm'⟩, hb⟩
          exact ⟨w, hw, ⟨t', hp.mem_iff.mp ht', hm'⟩, hb⟩
        · rintro ⟨w, hw, ⟨t', ht', hm'⟩, hb⟩
          exact ⟨w, hw, ⟨t', hp.mem_iff.mpr ht', hm'⟩, hb⟩
      by_cases hc : (mode = Mode.AND ∧ (scanTerms terms1 (wordsOf img) 0 [] []).1 = terms1.length)
          ∨ (mode = Mode.OR ∧ (scanTerms terms1 (wordsOf img) 0 [] []).1 > 0)
      · rw [if_pos hc, if_pos (by rw [← hcnt, ← hlen]; exact hc)]
        exact List.Forall₂.cons ⟨rfl, rfl, rfl, hperm⟩ ih
      · rw [if_neg hc, if_neg (by rw [← hcnt, ← hlen]; exact hc)]
        exact ih

/-- Witness for the amended C8 on the cat/dog image with swapped terms. -/
theorem c8_order_amended_witness :
    ([str "cat", str "dog"] : List (List Nat)).Perm [str "dog", str "cat"] ∧
    List.Forall₂ (fun m1 m2 : SearchMatch =>
        m1.id = m2.id ∧ m1.display_name = m2.display_name ∧
        m1.internal_filename = m2.internal_filename ∧
        (m1.matched_words.map (fun w => w.bbox)).Perm
          (m2.matched_words.map (fun w => w.bbox)))
      (searchImages Mode.AND [str "cat", str "dog"] [catDogImg])
      (searchImages Mode.AND [str "dog", str "cat"] [catDogImg]) := by
  have hp : ([str "cat", str "dog"] : List (List Nat)).Perm [str "dog", str "cat"] :=
    List.Perm.swap (str "dog") (str "cat") []
  exact ⟨hp, c8_order_amended Mode.AND [str "cat", str "dog"] [str "dog", str "cat"] [catDogImg] hp⟩
